import Mathlib

/-!
Verification of the expodb coordination layer: a shallow embedding of the
membership bridge (`HandleEvent`), the write path (`SetKeyVal`), the HTTP
handlers (`handleKeyPost`, `handleKeyGet`, `handleJoin`), the replicated
state machine apply function, and the `Serve` teardown structure, together
with theorems settling the specification claims about them.
-/

namespace Expodb

/-! ## Association list helpers (model of Go maps keyed by string) -/

/-- Association list lookup, mirroring a Go map read. -/
def lookupA {α : Type} (k : String) : List (String × α) → Option α
  | [] => none
  | (k1, v) :: rest => if k1 = k then some v else lookupA k rest

/-- Association list upsert, mirroring a Go map assignment `m[k] = v`. -/
def upsertA {α : Type} (k : String) (v : α) : List (String × α) → List (String × α)
  | [] => [(k, v)]
  | (k1, v1) :: rest => if k1 = k then (k, v) :: rest else (k1, v1) :: upsertA k v rest

/-! ## Membership bridge: metadata store and `HandleEvent` (part_000, lines 96-136)

The gossip member descriptor carries a name and tags; the tag holding the
consensus (raft) address may be missing, in which case the member is
malformed. -/

/-- Gossip member descriptor: a name, and the raft-address tag when present
(`none` models a descriptor whose required consensus-address tag is missing). -/
structure Member where
  name : String
  raftAddrTag : Option String
deriving DecidableEq, Repr

/-- Node record held by the metadata store: id and raft (consensus) address. -/
structure NodeRecord where
  id : String
  raftAddr : String
deriving DecidableEq, Repr

/-- Metadata store state: map from node id to its record. -/
abbrev MetaState := List (String × NodeRecord)

/-- Modelled from the spec: `metadata.Add` (the metadata store implementation is
not under src/; §4.1 of the spec defines it). Parses the member descriptor into
a NodeRecord and upserts it; fails with `MalformedMemberError` (here `none`) if
the consensus-address tag is missing, without mutating state. -/
def metadataAdd (m : Member) (st : MetaState) : MetaState × Option NodeRecord :=
  match m.raftAddrTag with
  | none => (st, none)
  | some addr =>
      let rec1 : NodeRecord := { id := m.name, raftAddr := addr }
      (upsertA m.name rec1 st, some rec1)

/-- A member descriptor is well formed when its consensus-address tag is present. -/
def memberWellFormed (m : Member) : Bool :=
  m.raftAddrTag.isSome

/-- Gossip event kinds delivered to `HandleEvent` (serf event types). -/
inductive SerfEvent where
  | join (members : List Member)
  | leave (members : List Member)
  | failed (members : List Member)
  | reap (members : List Member)
  | other
deriving DecidableEq, Repr

/-- An `AddVoter` reconfiguration call recorded as (id, peerAddress). -/
abbrev VoterCall := String × String

/-- Body of the `Join` loop in `HandleEvent` (part_000 lines 102-126): for each
member, upsert into the metadata store; on error the code only logs (there is
no `continue`), then reads `IsLeader` and, when leader, calls
`AddVoter(nodedata.Id(), nodedata.RaftAddr())` with the record returned by
`Add` — on the error path that record is the zero value (modelled from the
spec, since the metadata store implementation is not under src/). -/
def handleJoinMembers (isLeader : Bool) :
    List Member → MetaState → MetaState × List VoterCall
  | [], st => (st, [])
  | m :: rest, st =>
      let (st1, res) := metadataAdd m st
      if isLeader then
        let nodedata := res.getD { id := "", raftAddr := "" }
        let (st2, calls) := handleJoinMembers isLeader rest st1
        (st2, (nodedata.id, nodedata.raftAddr) :: calls)
      else
        handleJoinMembers isLeader rest st1

/-- Shallow embedding of `HandleEvent` (part_000 lines 96-136). Takes the
leadership snapshot and the metadata store state; returns the new metadata
state and the list of `AddVoter` calls issued. `Reap`, `Leave`, `Failed` and
unhandled event kinds only log. -/
def handleEvent (e : SerfEvent) (isLeader : Bool) (st : MetaState) :
    MetaState × List VoterCall :=
  match e with
  | .join members => handleJoinMembers isLeader members st
  | .leave _ => (st, [])
  | .failed _ => (st, [])
  | .reap _ => (st, [])
  | .other => (st, [])

/-! ## Write path: `SetKeyVal` (part_000, lines 54-58) -/

/-- Log entry type submitted by `SetKeyVal`: `multiraft.KVData`. -/
structure KVData where
  key : String
  val : String
deriving DecidableEq, Repr

/-- Shallow embedding of the entry built by `SetKeyVal(table, key, col, val)`:
`KVData{Key: table + ":" + key + ":" + col, Val: val}`. -/
def setKeyValEntry (table key col val : String) : KVData :=
  { key := table ++ ":" ++ key ++ ":" ++ col, val := val }

/-! ## Replicated state machine (modelled from the spec §4.4; the state-machine
implementation is not under src/) -/

/-- Log entry of the replicated state machine, per spec §3. -/
structure LogEntry where
  table : String
  row : String
  column : String
  value : String
deriving DecidableEq, Repr

/-- Column-to-value mapping of one row. -/
abbrev ColMap := List (String × String)

/-- Row-key-to-columns mapping of one table. -/
abbrev RowMap := List (String × ColMap)

/-- Table state of the RSM: table → row key → column → value. -/
abbrev TableState := List (String × RowMap)

/-- Modelled from the spec: the RSM `Apply` effect
`state[entry.table][entry.row][entry.column] = entry.value`, creating
intermediate levels on demand (§4.4). -/
def rsmApply (e : LogEntry) (st : TableState) : TableState :=
  let rows := (lookupA e.table st).getD []
  let cols := (lookupA e.row rows).getD []
  upsertA e.table (upsertA e.row (upsertA e.column e.value cols) rows) st

/-- Apply a finite sequence of log entries in order, starting from a state. -/
def rsmApplyAll (es : List LogEntry) (st : TableState) : TableState :=
  es.foldl (fun s e => rsmApply e s) st

/-- The table state of a freshly constructed RSM instance: empty. -/
def freshRSM : TableState := []

/-- Modelled from the spec: `GetByRowKey(table, row)` reads the row mapping
from the table state (§4.4). -/
def rsmGetByRowKey (table row : String) (st : TableState) : Option ColMap :=
  match lookupA table st with
  | none => none
  | some rows => lookupA row rows

/-! ## HTTP handlers (src/pkg/server/http.go)

The Go `http.ResponseWriter` commits the status line on the first
`WriteHeader`; later `WriteHeader` calls are superfluous and ignored, and a
`Write` with no prior `WriteHeader` implies status 200. -/

/-- Response writer state: the committed status (none until a header or body
write) and the accumulated body. -/
structure RW where
  status : Option Nat
  body : String
deriving DecidableEq, Repr

/-- A fresh response writer with nothing committed. -/
def rwNew : RW := { status := none, body := "" }

/-- Go `WriteHeader`: commits the status code; ignored if already committed. -/
def writeHeader (w : RW) (code : Nat) : RW :=
  if w.status.isSome then w else { w with status := some code }

/-- Go `Write` on the body: commits status 200 if no header was written yet. -/
def writeBody (w : RW) (s : String) : RW :=
  { status := some (w.status.getD 200), body := w.body ++ s }

/-- Embedding of `statusNotFound` (http.go lines 144-148). -/
def statusNotFound (w : RW) : RW :=
  writeBody (writeHeader w 404) "\x7b\"status\": \"404 not found\"\x7d"

/-- Embedding of `statusInternalError` (http.go lines 150-154). -/
def statusInternalError (w : RW) : RW :=
  writeBody (writeHeader w 500) "\x7b\"status\": \"internal server error\"\x7d"

/-- Strip a pattern when it is the leading run of the character list. -/
def dropPat : List Char → List Char → Option (List Char)
  | [], s => some s
  | _ :: _, [] => none
  | p :: ps, c :: cs => if p = c then dropPat ps cs else none

/-- Replace the first occurrence of a pattern in a character list. -/
def replaceFirstL (pat repl : List Char) : List Char → List Char
  | [] => []
  | c :: cs =>
      match dropPat pat (c :: cs) with
      | some rest => repl ++ rest
      | none => c :: replaceFirstL pat repl cs

/-- Embedding of `removeKeyPath` (http.go lines 55-57):
`strings.Replace(s, "/key", "", 1)`. -/
def removeKeyPath (s : String) : String :=
  ⟨replaceFirstL "/key".data "".data s.data⟩

/-- State of the legacy key-value finite state machine used by the HTTP
handlers: `fsm.stateValue`, a map from key string to int. -/
abbrev FsmState := List (String × Int)

/-- JSON body produced by `handleKeyGet` for a present key: the response struct
`{Value int, IsLeader string, Nodes string}` marshalled with its field tags. -/
def keyGetBody (v : Int) (leaderAddr : String) : String :=
  "\x7b\"value\":" ++ toString v ++ ",\"leader\":\"" ++ leaderAddr ++
    "\",\"nodes\":\"\"\x7d"

/-- Shallow embedding of `handleKeyGet` (http.go lines 95-121): writes header
200 first, then looks the key up in the local fsm state (no consensus call)
and either runs `statusNotFound` or writes the JSON body. -/
def handleKeyGet (fsm : FsmState) (leaderAddr : String) (path : String) : RW :=
  let w := writeHeader rwNew 200
  let key := removeKeyPath path
  match lookupA key fsm with
  | none => statusNotFound w
  | some v => writeBody w (keyGetBody v leaderAddr)

/-- An `Apply` submission to the consensus engine on the HTTP write path,
recorded as (key, value, timeout in seconds). The `event` struct's wire
encoding is not under src/; the call records the logical entry it carries. -/
abbrev ApplyCall := String × Int × Nat

/-- Shallow embedding of `handleKeyPost` (http.go lines 59-93). `body` is the
decoded `{value}` payload (`none` models an undecodable body); `applyErr`
is whether the 5-second `Apply` future resolves with an error. Returns the
response and the list of `Apply` submissions issued. -/
def handleKeyPost (path : String) (body : Option Int) (applyErr : Bool) :
    RW × List ApplyCall :=
  let key := removeKeyPath path
  match body with
  | none => (writeHeader rwNew 400, [])
  | some v =>
      let calls : List ApplyCall := [(key, v, 5)]
      if applyErr then (statusInternalError rwNew, calls)
      else (writeHeader rwNew 200, calls)

/-- Shallow embedding of `handleJoin` (http.go lines 123-140). `peerAddress`
is the `Peer-Address` header (empty when absent); `addVoterErr` is whether the
`AddVoter` future resolves with an error. Returns the response and the list of
`AddVoter` calls issued as (server id, server address). The empty-header branch
writes 400 but has no `return`, so control falls through to the `AddVoter`
call. -/
def handleJoin (peerAddress : String) (addVoterErr : Bool) :
    RW × List VoterCall :=
  let w := rwNew
  let w := if peerAddress = "" then writeHeader w 400 else w
  let calls : List VoterCall := [(peerAddress, peerAddress)]
  if addVoterErr then (statusInternalError w, calls)
  else (writeHeader w 200, calls)

/-! ## Lifecycle teardown (part_000, `Serve`, lines 199-214)

The two cleanup goroutines each block on `ctx.Done()` and then call their
agent's `Shutdown`; `g.Wait()` returns only after every goroutine has
returned. The model enumerates the teardown-relevant events of a cancelled
run: cancellation, the two shutdown calls (one per independent goroutine, so
in either interleaving), then the return of `Serve`. -/

/-- Teardown-relevant events of a cancelled `Serve` run. -/
inductive TEv where
  | cancel
  | serfShutdown
  | raftShutdown
  | serveReturn
deriving DecidableEq, Repr

/-- All splits of a list into a prefix-and-suffix pair. -/
def splits : List TEv → List (List TEv × List TEv)
  | [] => [([], [])]
  | y :: ys => ([], y :: ys) :: (splits ys).map (fun p => (y :: p.1, p.2))

/-- All interleavings (order-preserving merges) of two event sequences,
modelling two independent goroutines: each interleaving of `x :: xs` with `ys`
places some prefix of `ys` before `x` and interleaves the rest. -/
def interleave2 : List TEv → List TEv → List (List TEv)
  | [], ys => [ys]
  | x :: xs, ys =>
      (splits ys).flatMap (fun p => (interleave2 xs p.2).map (fun t => p.1 ++ x :: t))

/-- The possible teardown traces of a cancelled `Serve` run: cancellation
fires, the serf-cleanup goroutine (which runs `serfAgent.Shutdown`) and the
raft-cleanup goroutine (which runs `raftAgent.Shutdown`) proceed independently
in any interleaving, and `g.Wait()` lets `Serve` return only after both. -/
def serveTeardownTraces : List (List TEv) :=
  (interleave2 [TEv.serfShutdown] [TEv.raftShutdown]).map
    (fun m => TEv.cancel :: m ++ [TEv.serveReturn])

/-- Event `a` occurs strictly before event `b` in trace `t`. -/
def occursBefore (a b : TEv) (t : List TEv) : Prop :=
  List.indexOf a t < List.indexOf b t

instance (a b : TEv) (t : List TEv) : Decidable (occursBefore a b t) := by
  unfold occursBefore; infer_instance

/-! ## Helper lemmas -/

/-- Lookup after an upsert: hits the upserted key, otherwise unchanged. -/
theorem lookupA_upsertA {α : Type} (k k2 : String) (v : α) (l : List (String × α)) :
    lookupA k (upsertA k2 v l) = if k2 = k then some v else lookupA k l := by
  induction l with
  | nil => simp [upsertA, lookupA]
  | cons hd tl ih =>
      obtain ⟨k1, v1⟩ := hd
      by_cases h12 : k1 = k2
      · subst h12
        simp only [upsertA, if_pos rfl, lookupA]
        by_cases hk : k1 = k
        · simp [hk]
        · simp [hk, lookupA]
      · simp only [upsertA, if_neg h12, lookupA]
        by_cases hk : k1 = k
        · subst hk
          have : ¬ k2 = k1 := fun h => h12 h.symm
          simp [this]
        · simp [hk, ih]

/-- The metadata state after one loop iteration only depends on `metadataAdd`. -/
theorem handleJoinMembers_cons_fst (b : Bool) (m : Member) (ms : List Member)
    (st : MetaState) :
    (handleJoinMembers b (m :: ms) st).1 =
      (handleJoinMembers b ms (metadataAdd m st).1).1 := by
  cases b <;> simp [handleJoinMembers]

/-- While not leader, the join loop issues no `AddVoter` calls. -/
theorem handleJoinMembers_notLeader_calls (ms : List Member) (st : MetaState) :
    (handleJoinMembers false ms st).2 = [] := by
  induction ms generalizing st with
  | nil => rfl
  | cons m rest ih => simpa [handleJoinMembers] using ih (metadataAdd m st).1

/-- While leader, the join loop issues exactly one `AddVoter` call per member,
carrying the member's name and raft address, when every member is well formed. -/
theorem handleJoinMembers_leader_calls (ms : List Member) (st : MetaState)
    (h : ms.all memberWellFormed = true) :
    (handleJoinMembers true ms st).2 =
      ms.map (fun m => (m.name, m.raftAddrTag.getD "")) := by
  induction ms generalizing st with
  | nil => rfl
  | cons m rest ih =>
      simp only [List.all_cons, Bool.and_eq_true] at h
      obtain ⟨hm, hrest⟩ := h
      obtain ⟨a, ha⟩ := Option.isSome_iff_exists.mp hm
      simp [handleJoinMembers, metadataAdd, ha, ih _ hrest]

/-- The join loop never removes a key already present in the metadata store. -/
theorem handleJoinMembers_preserves (b : Bool) (ms : List Member) (st : MetaState)
    (k : String) (h : (lookupA k st).isSome = true) :
    (lookupA k (handleJoinMembers b ms st).1).isSome = true := by
  induction ms generalizing st with
  | nil => cases b <;> simpa [handleJoinMembers]
  | cons m rest ih =>
      rw [handleJoinMembers_cons_fst]
      apply ih
      cases hm : m.raftAddrTag with
      | none => simpa [metadataAdd, hm]
      | some a =>
          rw [metadataAdd]
          simp only [hm, lookupA_upsertA]
          by_cases hk : m.name = k <;> simp [hk, h]

/-- Every well-formed member processed by the join loop ends up recorded. -/
theorem handleJoinMembers_recorded (b : Bool) (ms : List Member) (st : MetaState)
    (h : ms.all memberWellFormed = true) (m : Member) (hm : m ∈ ms) :
    (lookupA m.name (handleJoinMembers b ms st).1).isSome = true := by
  induction ms generalizing st with
  | nil => cases hm
  | cons m1 rest ih =>
      simp only [List.all_cons, Bool.and_eq_true] at h
      obtain ⟨hm1, hrest⟩ := h
      rw [handleJoinMembers_cons_fst]
      rcases List.mem_cons.mp hm with heq | htl
      · subst heq
        apply handleJoinMembers_preserves
        obtain ⟨a, ha⟩ := Option.isSome_iff_exists.mp hm1
        simp [metadataAdd, ha, lookupA_upsertA]
      · exact ih _ hrest htl

/-! ## Claim theorems -/

/-- C1: a gossip `Join` event whose members are all well formed, processed
while `IsLeader()` is false, records every member in the metadata store and
issues zero `AddVoter` calls; processed while `IsLeader()` is true it issues
exactly one `AddVoter` call per joined member, in order. -/
theorem c1_join_leader_gate (members : List Member) (st : MetaState)
    (hwf : members.all memberWellFormed = true) :
    (handleEvent (.join members) false st).2 = [] ∧
    (∀ m ∈ members,
      (lookupA m.name (handleEvent (.join members) false st).1).isSome = true) ∧
    (handleEvent (.join members) true st).2 =
      members.map (fun m => (m.name, m.raftAddrTag.getD "")) := by
  refine ⟨handleJoinMembers_notLeader_calls members st, ?_, ?_⟩
  · intro m hm
    exact handleJoinMembers_recorded false members st hwf m hm
  · exact handleJoinMembers_leader_calls members st hwf

/-- Witness for C1 at a one-member join event on an empty store. -/
theorem c1_join_leader_gate_witness :
    ([{ name := "n2", raftAddrTag := some "10.0.0.2:9000" }] : List Member).all
        memberWellFormed = true ∧
    ((handleEvent (.join [{ name := "n2", raftAddrTag := some "10.0.0.2:9000" }])
        false []).2 = [] ∧
     (∀ m ∈ ([{ name := "n2", raftAddrTag := some "10.0.0.2:9000" }] : List Member),
       (lookupA m.name (handleEvent
          (.join [{ name := "n2", raftAddrTag := some "10.0.0.2:9000" }])
          false []).1).isSome = true) ∧
     (handleEvent (.join [{ name := "n2", raftAddrTag := some "10.0.0.2:9000" }])
        true []).2 =
       ([{ name := "n2", raftAddrTag := some "10.0.0.2:9000" }] : List Member).map
         (fun m => (m.name, m.raftAddrTag.getD ""))) :=
  ⟨by decide,
   c1_join_leader_gate [{ name := "n2", raftAddrTag := some "10.0.0.2:9000" }] []
     (by decide)⟩

/-- C2: applying the same finite sequence of log entries to two freshly
constructed RSM instances yields identical table state (replay determinism:
the table state is a pure function of the applied log prefix). -/
theorem c2_rsm_replay_deterministic (E : List LogEntry) (X Y : TableState)
    (hX : X = freshRSM) (hY : Y = freshRSM) :
    rsmApplyAll E X = rsmApplyAll E Y := by
  rw [hX, hY]

/-- Witness for C2 at a one-entry log on two fresh instances. -/
theorem c2_rsm_replay_deterministic_witness :
    ([] : TableState) = freshRSM ∧
    rsmApplyAll [{ table := "users", row := "u1", column := "email",
                   value := "a@x.com" }] [] =
      rsmApplyAll [{ table := "users", row := "u1", column := "email",
                     value := "a@x.com" }] [] :=
  ⟨rfl,
   c2_rsm_replay_deterministic
     [{ table := "users", row := "u1", column := "email", value := "a@x.com" }]
     [] [] rfl rfl⟩

/-- C3 counterexample: the teardown trace in which the raft agent's shutdown
runs before the serf agent's shutdown is a valid execution of `Serve` —
the two cleanup goroutines are independent, so the gossip shutdown is not
invoked strictly before the consensus shutdown. -/
theorem c3_teardown_counterexample :
    [TEv.cancel, TEv.raftShutdown, TEv.serfShutdown, TEv.serveReturn] ∈
        serveTeardownTraces ∧
    ¬ occursBefore TEv.serfShutdown TEv.raftShutdown
        [TEv.cancel, TEv.raftShutdown, TEv.serfShutdown, TEv.serveReturn] := by
  decide

/-- C3 amended: in every teardown trace of a cancelled `Serve` run, both the
serf and the raft shutdowns are invoked (in either order, after cancellation),
and `Serve` returns only after both have returned. -/
theorem c3_teardown_amended (t : List TEv) (ht : t ∈ serveTeardownTraces) :
    TEv.serfShutdown ∈ t ∧ TEv.raftShutdown ∈ t ∧
    occursBefore TEv.cancel TEv.serfShutdown t ∧
    occursBefore TEv.cancel TEv.raftShutdown t ∧
    occursBefore TEv.serfShutdown TEv.serveReturn t ∧
    occursBefore TEv.raftShutdown TEv.serveReturn t := by
  fin_cases ht <;> decide

/-- Witness for C3 at the serf-first teardown trace. -/
theorem c3_teardown_amended_witness :
    [TEv.cancel, TEv.serfShutdown, TEv.raftShutdown, TEv.serveReturn] ∈
        serveTeardownTraces ∧
    (TEv.serfShutdown ∈
        [TEv.cancel, TEv.serfShutdown, TEv.raftShutdown, TEv.serveReturn] ∧
     TEv.raftShutdown ∈
        [TEv.cancel, TEv.serfShutdown, TEv.raftShutdown, TEv.serveReturn] ∧
     occursBefore TEv.cancel TEv.serfShutdown
        [TEv.cancel, TEv.serfShutdown, TEv.raftShutdown, TEv.serveReturn] ∧
     occursBefore TEv.cancel TEv.raftShutdown
        [TEv.cancel, TEv.serfShutdown, TEv.raftShutdown, TEv.serveReturn] ∧
     occursBefore TEv.serfShutdown TEv.serveReturn
        [TEv.cancel, TEv.serfShutdown, TEv.raftShutdown, TEv.serveReturn] ∧
     occursBefore TEv.raftShutdown TEv.serveReturn
        [TEv.cancel, TEv.serfShutdown, TEv.raftShutdown, TEv.serveReturn]) :=
  ⟨by decide, c3_teardown_amended
    [TEv.cancel, TEv.serfShutdown, TEv.raftShutdown, TEv.serveReturn] (by decide)⟩

/-- C4: at the failing input — a `Join` event carrying one malformed member
`n1` (missing raft-address tag) and one well-formed member `n2`, processed
while leader — the handler does not skip the malformed member: having only
logged the `metadata.Add` error, it falls through to the leadership check and
issues an `AddVoter` call for `n1` built from the error-path record, before
continuing with `n2`. -/
theorem c4_malformed_member_not_skipped :
    handleEvent (.join [{ name := "n1", raftAddrTag := none },
                        { name := "n2", raftAddrTag := some "10.0.0.2:9000" }])
        true [] =
      ([("n2", { id := "n2", raftAddr := "10.0.0.2:9000" })],
       [("", ""), ("n2", "10.0.0.2:9000")]) := by
  decide

/-- C5: at the failing input — a GET for an absent key — the response status
is 200, not 404: `handleKeyGet` commits status 200 before the lookup, so the
404 written by `statusNotFound` is superfluous and only its body is sent. For
a present key the handler serves the value-and-leader JSON from the local fsm
state. -/
theorem c5_get_absent_status_200 :
    (handleKeyGet [] "10.0.0.1:9000" "/key/x").status = some 200 ∧
    (handleKeyGet [] "10.0.0.1:9000" "/key/x").body =
      "\x7b\"status\": \"404 not found\"\x7d" ∧
    handleKeyGet [("/x", (7 : Int))] "10.0.0.1:9000" "/key/x" =
      { status := some 200, body := keyGetBody 7 "10.0.0.1:9000" } := by
  decide

/-- C6: a POST on a key path with a decodable body submits exactly one `Apply`
to the consensus engine, carrying a 5-second timeout; the response status is
200 exactly when the `Apply` future resolves without error, and 500 on an
`Apply` failure or timeout. -/
theorem c6_post_applies_once (path : String) (v : Int) (applyErr : Bool) :
    (handleKeyPost path (some v) applyErr).2 = [(removeKeyPath path, v, 5)] ∧
    ((handleKeyPost path (some v) applyErr).1.status = some 200 ↔
      applyErr = false) ∧
    (applyErr = true → (handleKeyPost path (some v) applyErr).1.status = some 500) := by
  cases applyErr <;>
    simp [handleKeyPost, statusInternalError, writeHeader, writeBody, rwNew]

/-- C7 counterexample: the write path joins table, row and column with a colon
into one key string, so the two distinct triples ("a:b", "c", "d") and
("a", "b:c", "d") map to the same log-entry key. -/
theorem c7_colon_key_counterexample :
    setKeyValEntry "a:b" "c" "d" "v" = setKeyValEntry "a" "b:c" "d" "v" ∧
    ("a:b", "c", "d") ≠ (("a", "b:c", "d") : String × String × String) := by
  decide

/-- A string containing no colon character. -/
def noColon (s : String) : Bool :=
  s.data.all (fun c => c != ':')

/-- Splitting a concatenation at a marker character absent from both prefixes
determines the prefixes and the remainders. -/
theorem append_colon_inj (l1 : List Char) (l2 : List Char) (l3 : List Char)
    (l4 : List Char) (h1 : ∀ a ∈ l1, a ≠ ':') (h3 : ∀ a ∈ l3, a ≠ ':')
    (heq : l1 ++ ':' :: l2 = l3 ++ ':' :: l4) : l1 = l3 ∧ l2 = l4 := by
  induction l1 generalizing l3 with
  | nil =>
      cases l3 with
      | nil => simpa using heq
      | cons b bs =>
          simp only [List.nil_append, List.cons_append, List.cons.injEq] at heq
          exact absurd heq.1.symm (h3 b (List.mem_cons_self b bs))
  | cons a as ih =>
      cases l3 with
      | nil =>
          simp only [List.nil_append, List.cons_append, List.cons.injEq] at heq
          exact absurd heq.1 (h1 a (List.mem_cons_self a as))
      | cons b bs =>
          simp only [List.cons_append, List.cons.injEq] at heq
          obtain ⟨hab, htl⟩ := heq
          have h1t : ∀ x ∈ as, x ≠ ':' := fun x hx => h1 x (List.mem_cons_of_mem a hx)
          have h3t : ∀ x ∈ bs, x ≠ ':' := fun x hx => h3 x (List.mem_cons_of_mem b hx)
          obtain ⟨he, ht⟩ := ih bs h1t h3t htl
          exact ⟨by rw [hab, he], ht⟩

/-- C7 amended: the log entry built by `SetKeyVal` carries a single
colon-joined key `table:row:column` together with the value; distinct
(table, row, column) triples map to distinct entries provided the table and
row components contain no colon. -/
theorem c7_colon_key_injective (t r c v t2 r2 c2 v2 : String)
    (h1 : noColon t = true) (h2 : noColon r = true)
    (h3 : noColon t2 = true) (h4 : noColon r2 = true)
    (heq : setKeyValEntry t r c v = setKeyValEntry t2 r2 c2 v2) :
    t = t2 ∧ r = r2 ∧ c = c2 ∧ v = v2 := by
  have hkey : t ++ ":" ++ r ++ ":" ++ c = t2 ++ ":" ++ r2 ++ ":" ++ c2 :=
    congrArg KVData.key heq
  have hval : v = v2 := congrArg KVData.val heq
  have hdata : t.data ++ ':' :: (r.data ++ ':' :: c.data) =
      t2.data ++ ':' :: (r2.data ++ ':' :: c2.data) := by
    have := congrArg String.data hkey
    simpa [String.data_append, List.append_assoc] using this
  have hnc1 : ∀ a ∈ t.data, a ≠ ':' := by
    intro a ha
    have := List.all_eq_true.mp h1 a ha
    simpa using this
  have hnc2 : ∀ a ∈ r.data, a ≠ ':' := by
    intro a ha
    have := List.all_eq_true.mp h2 a ha
    simpa using this
  have hnc3 : ∀ a ∈ t2.data, a ≠ ':' := by
    intro a ha
    have := List.all_eq_true.mp h3 a ha
    simpa using this
  have hnc4 : ∀ a ∈ r2.data, a ≠ ':' := by
    intro a ha
    have := List.all_eq_true.mp h4 a ha
    simpa using this
  obtain ⟨ht, hrest⟩ := append_colon_inj t.data _ t2.data _ hnc1 hnc3 hdata
  obtain ⟨hr, hc⟩ := append_colon_inj r.data _ r2.data _ hnc2 hnc4 hrest
  exact ⟨String.ext ht, String.ext hr, String.ext hc, hval⟩

/-- Witness for the amended C7 at concrete colon-free components. -/
theorem c7_colon_key_injective_witness :
    noColon "users" = true ∧ noColon "u1" = true ∧
    ("users" = "users" ∧ "u1" = "u1" ∧ "email" = "email" ∧ "a@x.com" = "a@x.com") :=
  ⟨by decide, by decide,
   c7_colon_key_injective "users" "u1" "email" "a@x.com" "users" "u1" "email"
     "a@x.com" (by decide) (by decide) (by decide) (by decide) rfl⟩

/-- C8: gossip `Leave`, `Failed` and `Reap` events issue no consensus-group
reconfiguration call (no `AddVoter`, no removal) and leave the metadata store
unchanged: the handler only logs them. -/
theorem c8_leave_failed_reap_no_reconfiguration (members : List Member)
    (isLeader : Bool) (st : MetaState) :
    handleEvent (.leave members) isLeader st = (st, []) ∧
    handleEvent (.failed members) isLeader st = (st, []) ∧
    handleEvent (.reap members) isLeader st = (st, []) :=
  ⟨rfl, rfl, rfl⟩

/-- C9: at the failing input — a join request with an empty `Peer-Address`
header — the response status is 400, but the missing `return` lets control
fall through, so an `AddVoter` call with empty server id and address is still
issued (shown for both outcomes of the `AddVoter` future). -/
theorem c9_empty_peer_address_still_adds_voter :
    handleJoin "" false = ({ status := some 400, body := "" }, [("", "")]) ∧
    handleJoin "" true =
      ({ status := some 400,
         body := "\x7b\"status\": \"internal server error\"\x7d" },
       [("", "")]) := by
  decide

/-- C10: a join request with a non-empty `Peer-Address` header issues exactly
one `AddVoter` call whose server id and server address are both the header
value. -/
theorem c10_join_header_is_id_and_address (peerAddress : String)
    (addVoterErr : Bool) (hne : peerAddress ≠ "") :
    (handleJoin peerAddress addVoterErr).2 = [(peerAddress, peerAddress)] := by
  cases addVoterErr <;> simp [handleJoin]

/-- Witness for C10 at a concrete peer address. -/
theorem c10_join_header_is_id_and_address_witness :
    "10.0.0.3:9000" ≠ "" ∧
    (handleJoin "10.0.0.3:9000" false).2 = [("10.0.0.3:9000", "10.0.0.3:9000")] :=
  ⟨by decide, c10_join_header_is_id_and_address "10.0.0.3:9000" false (by decide)⟩

end Expodb
